import Mathlib

/-!
Shallow embedding of `languagebind/__init__.py`.

The file defines a registry (`config_dict`, `model_dict`, `transform_dict`),
a composite module `LanguageBind` (per-modality encoders, projections,
logit scales and configs, with a forward pass that L2-normalizes and
optionally temperature-scales each modality's embedding), a `to_device`
helper, and a `LanguageBindVideoTower` adapter around a pretrained video
encoder.

Pretrained checkpoints live on an external hub, so checkpoint loading is
modelled by an environment of loader functions; everything the repository
itself computes (dictionary bookkeeping, normalization, scaling, layer
selection, list-vs-tensor branching) is embedded concretely.  Python
`dict`s are modelled as association lists with Python's update semantics
(overwrite in place, else append), and operations that can raise
(`KeyError`, `IndexError`, use of an unbound loop variable, attribute
access on a never-loaded tower) return `Option`.
-/

set_option autoImplicit false

/-- Python `d[k]` read: first entry whose key equals `k`, `none` models `KeyError`. -/
def dictGet {α : Type _} : List (String × α) → String → Option α
  | [], _ => none
  | (k', v) :: rest, k => if k' = k then some v else dictGet rest k

/-- Python `d[k] = v` write: overwrite in place if the key is present, else append. -/
def dictSet {α : Type _} : List (String × α) → String → α → List (String × α)
  | [], k, v => [(k, v)]
  | (k', v') :: rest, k, v =>
    if k' = k then (k, v) :: rest else (k', v') :: dictSet rest k v

/-- The fifteen pretrained-class names imported at the top of the module. -/
inductive HubClass : Type
  | LanguageBindThermalConfig
  | LanguageBindImageConfig
  | LanguageBindVideoConfig
  | LanguageBindDepthConfig
  | LanguageBindAudioConfig
  | LanguageBindThermal
  | LanguageBindImage
  | LanguageBindVideo
  | LanguageBindDepth
  | LanguageBindAudio
  | LanguageBindThermalProcessor
  | LanguageBindImageProcessor
  | LanguageBindVideoProcessor
  | LanguageBindDepthProcessor
  | LanguageBindAudioProcessor
deriving DecidableEq

/-- Registry `config_dict` from the source, in source order. -/
def config_dict : List (String × HubClass) :=
  [("thermal", .LanguageBindThermalConfig),
   ("image", .LanguageBindImageConfig),
   ("video", .LanguageBindVideoConfig),
   ("depth", .LanguageBindDepthConfig),
   ("audio", .LanguageBindAudioConfig)]

/-- Registry `model_dict` from the source, in source order. -/
def model_dict : List (String × HubClass) :=
  [("thermal", .LanguageBindThermal),
   ("image", .LanguageBindImage),
   ("video", .LanguageBindVideo),
   ("depth", .LanguageBindDepth),
   ("audio", .LanguageBindAudio)]

/-- Registry `transform_dict` from the source, in source order. -/
def transform_dict : List (String × HubClass) :=
  [("video", .LanguageBindVideoProcessor),
   ("audio", .LanguageBindAudioProcessor),
   ("depth", .LanguageBindDepthProcessor),
   ("thermal", .LanguageBindThermalProcessor),
   ("image", .LanguageBindImageProcessor)]

/-- A batched embedding tensor: a list of rows, the last dimension innermost. -/
abbrev Mat : Type := List (List ℝ)

/-- The output tuple of an encoder call: index `0` (sequence output) and
index `1` (pooled output), as selected by `(...)  [1]` in the source. -/
abbrev EncPair : Type := Mat × Mat

/-- A pretrained checkpoint as `model_dict[k].from_pretrained` returns it:
the sub-modules and parameters the constructor extracts.  Encoder inputs
are abstract (`ι`); `config` is an opaque identifier. -/
structure PretrainedCLIP (ι : Type) where
  vision_model : ι → EncPair
  text_model : ι → EncPair
  visual_projection : Mat → Mat
  text_projection : Mat → Mat
  logit_scale : ℝ
  config : ℕ

/-- The external hub: what `cls.from_pretrained(checkpoint)` yields for a
given class and checkpoint string.  (`cache_dir` only routes downloads and
cannot affect the loaded weights, so it is not a parameter.) -/
structure LBEnv (ι : Type) where
  from_pretrained : HubClass → String → PretrainedCLIP ι

/-- The state built by `LanguageBind.__init__`. -/
structure LanguageBind (ι : Type) where
  use_temp : Bool
  modality_encoder : List (String × (ι → EncPair))
  modality_proj : List (String × (Mat → Mat))
  modality_scale : List (String × ℝ)
  modality_config : List (String × ℕ)

/-- The `for k, v in clip_type.items()` loop of `LanguageBind.__init__`:
threads the four dictionaries and the loop variable `model` (`none` while
the body has not yet run).  `model_dict[k]` can raise `KeyError`. -/
def initLoop {ι : Type} (env : LBEnv ι) :
    List (String × String) → LanguageBind ι → Option (PretrainedCLIP ι) →
    Option (LanguageBind ι × Option (PretrainedCLIP ι))
  | [], st, m => some (st, m)
  | (k, v) :: rest, st, _ =>
    match dictGet model_dict k with
    | none => none
    | some cls =>
      let model := env.from_pretrained cls ("LanguageBind/" ++ v)
      initLoop env rest
        { st with
          modality_encoder := dictSet st.modality_encoder k model.vision_model
          modality_proj := dictSet st.modality_proj k model.visual_projection
          modality_scale := dictSet st.modality_scale k model.logit_scale
          modality_config := dictSet st.modality_config k model.config }
        (some model)

/-- Constructor `LanguageBind.__init__`: run the loading loop, then install the last
loaded model's text encoder and text projection under key `language`.
Returns `none` when the loop body never ran (empty `clip_type` leaves the
name `model` unbound) or a `model_dict` lookup raised. -/
def LanguageBind.init {ι : Type} (env : LBEnv ι) (clip_type : List (String × String))
    (use_temp : Bool) : Option (LanguageBind ι) :=
  match initLoop env clip_type
      { use_temp := use_temp, modality_encoder := [], modality_proj := [],
        modality_scale := [], modality_config := [] } none with
  | none => none
  | some (_, none) => none
  | some (st, some model) =>
    some { st with
      modality_encoder := dictSet st.modality_encoder "language" model.text_model
      modality_proj := dictSet st.modality_proj "language" model.text_projection }

/-- Sum of squares of a row. -/
noncomputable def sumSq (v : List ℝ) : ℝ := (v.map fun x => x ^ 2).sum

/-- Source `row.norm(p=2, dim=-1)` of one row: the L2 norm along the last dimension. -/
noncomputable def l2norm (v : List ℝ) : ℝ := Real.sqrt (sumSq v)

/-- Source `value / value.norm(p=2, dim=-1, keepdim=True)` applied to one row. -/
noncomputable def normalizeRow (v : List ℝ) : List ℝ := v.map fun x => x / l2norm v

/-- The body of the loop in `LanguageBind.forward` for one `(key, value)`
item: encode (taking tuple index `1`), project, L2-normalize each row,
then, when `use_temp` and the key is not `language`, multiply by
`modality_scale[key].exp()`.  Dictionary misses model `KeyError`. -/
noncomputable def lbProcess {ι : Type} (st : LanguageBind ι) (key : String) (v : ι) :
    Option Mat :=
  match dictGet st.modality_encoder key with
  | none => none
  | some enc =>
    match dictGet st.modality_proj key with
    | none => none
    | some proj =>
      let value := proj (enc v).2
      let value := value.map normalizeRow
      if st.use_temp then
        if key ≠ "language" then
          match dictGet st.modality_scale key with
          | none => none
          | some s => some (value.map (List.map fun x => x * Real.exp s))
        else some value
      else some value

/-- Method `LanguageBind.forward`: build the outputs dictionary item by item, in
input order. -/
noncomputable def LanguageBind.forward {ι : Type} (st : LanguageBind ι) :
    List (String × ι) → Option (List (String × Mat))
  | [] => some []
  | (k, v) :: rest =>
    match lbProcess st k v with
    | none => none
    | some m =>
      match LanguageBind.forward st rest with
      | none => none
      | some outs => some ((k, m) :: outs)

/-- Helper `to_device`: move every value of the dictionary to `device` with the
tensor-moving operation `toFn`, keeping the keys. -/
def to_device {τ δ : Type} (toFn : τ → δ → τ) (x : List (String × τ)) (device : δ) :
    List (String × τ) :=
  x.map fun kv => (kv.1, toFn kv.2 device)

/-- Torch dtypes, as far as the tower moves tensors between them. -/
inductive Dtype : Type
  | float32
  | float16
  | bfloat16
deriving DecidableEq

/-- Torch devices. -/
inductive PyDevice : Type
  | cpu
  | cuda (index : ℕ)
deriving DecidableEq

/-- A torch tensor for the video tower, as far as the tower observes it:
dtype, device, shape, and an opaque payload identifier. -/
structure PyTensor where
  dtype : Dtype
  device : PyDevice
  shape : List ℕ
  data : ℕ
deriving DecidableEq

/-- Torch `t.to(device=..., dtype=...)`. -/
def PyTensor.to (t : PyTensor) (device : PyDevice) (dtype : Dtype) : PyTensor :=
  { t with device := device, dtype := dtype }

/-- Torch `t.to(dtype)`. -/
def PyTensor.toDtype (t : PyTensor) (dtype : Dtype) : PyTensor :=
  { t with dtype := dtype }

/-- Torch `t.unsqueeze(0)`: prepend a batch dimension of size 1. -/
def PyTensor.unsqueeze0 (t : PyTensor) : PyTensor :=
  { t with shape := 1 :: t.shape }

/-- What an encoder call with `output_hidden_states=True` returns, as far
as `feature_select` reads it. -/
structure VideoForwardOuts where
  hidden_states : List PyTensor
deriving DecidableEq

/-- The `class_embedding` parameter of the vision embeddings, carrying the
model's dtype and device. -/
structure ClassEmbedding where
  dtype : Dtype
  device : PyDevice
deriving DecidableEq

/-- The `embeddings` sub-module of the vision model. -/
structure VisionEmbeddings where
  class_embedding : ClassEmbedding
deriving DecidableEq

/-- The pretrained video configuration, as far as the tower reads it. -/
structure VideoConfig where
  hidden_size : ℕ
  image_size : ℕ
  patch_size : ℕ
deriving DecidableEq

/-- The `vision_model` sub-module of a pretrained `LanguageBindVideo`
checkpoint: its embeddings, its config, and its forward computation
(`run input output_hidden_states`). -/
structure VisionModel where
  embeddings : VisionEmbeddings
  config : VideoConfig
  run : PyTensor → Bool → VideoForwardOuts

/-- A loaded `LanguageBindVideo` checkpoint. -/
structure LBVideoModel where
  vision_model : VisionModel
  config : VideoConfig

/-- The external hub seen by the tower: `LanguageBindVideo.from_pretrained`
and `LanguageBindVideoConfig.from_pretrained` keyed by checkpoint name. -/
structure VideoEnv where
  videoFromPretrained : String → LBVideoModel
  videoConfigFromPretrained : String → VideoConfig

/-- The `args` object the tower constructor reads.
`mm_vision_select_feature` is `none` when the attribute is absent
(`getattr` then falls back to `patch`). -/
structure VTArgs where
  mm_vision_select_layer : Int
  mm_vision_select_feature : Option String

/-- The state of a `LanguageBindVideoTower`.  `video_tower` is `none`
until `load_model` has run (attribute access then fails). -/
structure LanguageBindVideoTower where
  is_loaded : Bool
  video_tower_name : String
  select_layer : Int
  select_feature : String
  video_tower : Option VisionModel
  cfg_only : Option VideoConfig

/-- Method `LanguageBindVideoTower.load_model`: load the checkpoint and keep its
vision sub-model.  (`requires_grad_(False)` and the processor construction
do not change the features the tower computes.) -/
def LanguageBindVideoTower.load_model (env : VideoEnv) (st : LanguageBindVideoTower) :
    LanguageBindVideoTower :=
  let model := env.videoFromPretrained st.video_tower_name
  { st with video_tower := some model.vision_model, is_loaded := true }

/-- Constructor `LanguageBindVideoTower.__init__`. -/
def LanguageBindVideoTower.init (env : VideoEnv) (video_tower : String) (args : VTArgs)
    (delay_load : Bool) : LanguageBindVideoTower :=
  let st0 : LanguageBindVideoTower :=
    { is_loaded := false
      video_tower_name := video_tower
      select_layer := args.mm_vision_select_layer
      select_feature := args.mm_vision_select_feature.getD "patch"
      video_tower := none
      cfg_only := none }
  if delay_load then
    { st0 with cfg_only := some (env.videoConfigFromPretrained video_tower) }
  else
    LanguageBindVideoTower.load_model env st0

/-- Python list indexing `xs[i]` with negative-index wraparound;
`none` models `IndexError`. -/
def pyIndex {α : Type _} (xs : List α) (i : Int) : Option α :=
  if 0 ≤ i then xs.get? i.toNat
  else if (-i).toNat ≤ xs.length then xs.get? (xs.length - (-i).toNat)
  else none

/-- Method `feature_select`: pick `hidden_states[select_layer]` and return it
whole (the `select_feature` slicing is commented out in the source). -/
def LanguageBindVideoTower.feature_select (st : LanguageBindVideoTower)
    (video_forward_outs : VideoForwardOuts) : Option PyTensor :=
  pyIndex video_forward_outs.hidden_states st.select_layer

/-- The `dtype` property: `self.video_tower.embeddings.class_embedding.dtype`. -/
def LanguageBindVideoTower.dtype (st : LanguageBindVideoTower) : Option Dtype :=
  st.video_tower.map fun vt => vt.embeddings.class_embedding.dtype

/-- The `device` property: `self.video_tower.embeddings.class_embedding.device`. -/
def LanguageBindVideoTower.device (st : LanguageBindVideoTower) : Option PyDevice :=
  st.video_tower.map fun vt => vt.embeddings.class_embedding.device

/-- The `config` property: the loaded model's config when loaded, else
the `cfg_only` fetched at construction. -/
def LanguageBindVideoTower.config (st : LanguageBindVideoTower) : Option VideoConfig :=
  if st.is_loaded then st.video_tower.map fun vt => vt.config else st.cfg_only

/-- The `hidden_size` property: `self.config.hidden_size`. -/
def LanguageBindVideoTower.hidden_size (st : LanguageBindVideoTower) : Option ℕ :=
  st.config.map fun c => c.hidden_size

/-- The argument of `LanguageBindVideoTower.forward`: either a Python list
of per-video tensors or one batched tensor (`type(videos) is list`). -/
inductive VideosInput : Type
  | list (videos : List PyTensor)
  | tensor (videos : PyTensor)

/-- The list branch of `forward`: process each video in order, moving it to
the tower's device and dtype, adding a batch dimension of size 1, running
the encoder with `output_hidden_states=True`, selecting features, and
casting back to the video's dtype. -/
def processVideos (st : LanguageBindVideoTower) (vt : VisionModel) :
    List PyTensor → Option (List PyTensor)
  | [] => some []
  | video :: rest =>
    match st.feature_select
        (vt.run ((video.to vt.embeddings.class_embedding.device
          vt.embeddings.class_embedding.dtype).unsqueeze0) true) with
    | none => none
    | some f =>
      match processVideos st vt rest with
      | none => none
      | some fs => some (f.toDtype video.dtype :: fs)

/-- Method `LanguageBindVideoTower.forward`. -/
def LanguageBindVideoTower.forward (st : LanguageBindVideoTower) (videos : VideosInput) :
    Option (List PyTensor ⊕ PyTensor) :=
  match st.video_tower with
  | none => none
  | some vt =>
    match videos with
    | .list vs => (processVideos st vt vs).map Sum.inl
    | .tensor t =>
      (st.feature_select
          (vt.run (t.to vt.embeddings.class_embedding.device
            vt.embeddings.class_embedding.dtype) true)).map
        fun f => Sum.inr (f.toDtype t.dtype)

/-! ### Dictionary lemmas -/

theorem dictGet_dictSet_self {α : Type _} (d : List (String × α)) (k : String) (v : α) :
    dictGet (dictSet d k v) k = some v := by
  induction d with
  | nil => simp [dictSet, dictGet]
  | cons hd tl ih =>
    obtain ⟨k', v'⟩ := hd
    by_cases h : k' = k
    · simp [dictSet, h, dictGet]
    · simp [dictSet, h, dictGet, ih]

theorem dictGet_dictSet_ne {α : Type _} (d : List (String × α)) (k k' : String) (v : α)
    (h : k' ≠ k) : dictGet (dictSet d k v) k' = dictGet d k' := by
  induction d with
  | nil => simp [dictSet, dictGet, Ne.symm h]
  | cons hd tl ih =>
    obtain ⟨k'', v''⟩ := hd
    by_cases hk : k'' = k
    · subst hk
      simp [dictSet, dictGet, Ne.symm h, h]
    · simp [dictSet, hk, dictGet, ih]

/-! ### Norm lemmas -/

theorem sumSq_nonneg (v : List ℝ) : 0 ≤ sumSq v := by
  induction v with
  | nil => simp [sumSq]
  | cons x t ih =>
    have h : sumSq (x :: t) = x ^ 2 + sumSq t := by simp [sumSq]
    rw [h]
    exact add_nonneg (sq_nonneg x) ih

theorem sumSq_map_div (v : List ℝ) (c : ℝ) :
    sumSq (v.map fun x => x / c) = sumSq v / c ^ 2 := by
  induction v with
  | nil => simp [sumSq]
  | cons x t ih =>
    have h1 : sumSq ((x :: t).map fun y => y / c) = (x / c) ^ 2 + sumSq (t.map fun y => y / c) := by
      simp [sumSq]
    have h2 : sumSq (x :: t) = x ^ 2 + sumSq t := by simp [sumSq]
    rw [h1, h2, ih, div_pow, div_add_div_same]

theorem l2norm_nonneg (v : List ℝ) : 0 ≤ l2norm v := Real.sqrt_nonneg _

theorem l2norm_normalizeRow (v : List ℝ) (h : l2norm v ≠ 0) :
    l2norm (normalizeRow v) = 1 := by
  have hs : sumSq v ≠ 0 := by
    intro h0
    apply h
    simp [l2norm, h0]
  have hsq : l2norm v ^ 2 = sumSq v := Real.sq_sqrt (sumSq_nonneg v)
  have hone : sumSq (normalizeRow v) = 1 := by
    rw [normalizeRow, sumSq_map_div, hsq, div_self hs]
  rw [l2norm, hone, Real.sqrt_one]

/-! ### Constructor-loop lemmas -/

theorem initLoop_preserve {ι : Type} (env : LBEnv ι) (l : List (String × String)) (k : String)
    (hk : k ∉ l.map Prod.fst) :
    ∀ st m st' m', initLoop env l st m = some (st', m') →
      dictGet st'.modality_encoder k = dictGet st.modality_encoder k ∧
      dictGet st'.modality_proj k = dictGet st.modality_proj k ∧
      dictGet st'.modality_scale k = dictGet st.modality_scale k ∧
      dictGet st'.modality_config k = dictGet st.modality_config k := by
  induction l with
  | nil =>
    intro st m st' m' h
    simp [initLoop] at h
    obtain ⟨h1, _⟩ := h
    rw [← h1]
    exact ⟨rfl, rfl, rfl, rfl⟩
  | cons hd rest ih =>
    intro st m st' m' h
    obtain ⟨k', v'⟩ := hd
    simp only [List.map_cons, List.mem_cons] at hk
    push_neg at hk
    obtain ⟨hk1, hk2⟩ := hk
    simp only [initLoop] at h
    cases hcls : dictGet model_dict k' with
    | none => rw [hcls] at h; exact absurd h (by simp)
    | some cls =>
      rw [hcls] at h
      obtain ⟨e1, e2, e3, e4⟩ := ih hk2 _ _ _ _ h
      refine ⟨?_, ?_, ?_, ?_⟩ <;>
        simp_all [dictGet_dictSet_ne _ _ _ _ hk1]

theorem initLoop_mem {ι : Type} (env : LBEnv ι) (l : List (String × String))
    (hnd : (l.map Prod.fst).Nodup) (k : String) (v : String) (hmem : (k, v) ∈ l) :
    ∀ st m st' m', initLoop env l st m = some (st', m') →
      ∃ cls, dictGet model_dict k = some cls ∧
        dictGet st'.modality_encoder k =
          some (env.from_pretrained cls ("LanguageBind/" ++ v)).vision_model ∧
        dictGet st'.modality_proj k =
          some (env.from_pretrained cls ("LanguageBind/" ++ v)).visual_projection ∧
        dictGet st'.modality_scale k =
          some (env.from_pretrained cls ("LanguageBind/" ++ v)).logit_scale ∧
        dictGet st'.modality_config k =
          some (env.from_pretrained cls ("LanguageBind/" ++ v)).config := by
  induction l with
  | nil => simp at hmem
  | cons hd rest ih =>
    intro st m st' m' h
    obtain ⟨k', v'⟩ := hd
    simp only [List.map_cons, List.nodup_cons] at hnd
    obtain ⟨hnd1, hnd2⟩ := hnd
    simp only [initLoop] at h
    cases hcls : dictGet model_dict k' with
    | none => rw [hcls] at h; exact absurd h (by simp)
    | some cls =>
      rw [hcls] at h
      rcases List.mem_cons.mp hmem with heq | htl
      · obtain ⟨hk, hv⟩ := Prod.mk.injEq .. ▸ heq
        subst hk
        subst hv
        obtain ⟨e1, e2, e3, e4⟩ := initLoop_preserve env rest k hnd1 _ _ _ _ h
        refine ⟨cls, hcls, ?_, ?_, ?_, ?_⟩ <;>
          simp_all [dictGet_dictSet_self]
      · have hkne : k ≠ k' := by
          intro hkk
          subst hkk
          exact hnd1 (List.mem_map.mpr ⟨(k, v), htl, rfl⟩)
        exact ih hnd2 htl _ _ _ _ h

theorem initLoop_last {ι : Type} (env : LBEnv ι) (l : List (String × String)) :
    ∀ st m st' m', initLoop env l st m = some (st', m') →
      (l = [] ∧ st' = st ∧ m' = m) ∨
      (∃ last cls, l.getLast? = some last ∧ dictGet model_dict last.1 = some cls ∧
        m' = some (env.from_pretrained cls ("LanguageBind/" ++ last.2))) := by
  induction l with
  | nil =>
    intro st m st' m' h
    simp [initLoop] at h
    exact Or.inl ⟨rfl, h.1.symm, h.2.symm⟩
  | cons hd rest ih =>
    intro st m st' m' h
    obtain ⟨k', v'⟩ := hd
    simp only [initLoop] at h
    cases hcls : dictGet model_dict k' with
    | none => rw [hcls] at h; exact absurd h (by simp)
    | some cls =>
      rw [hcls] at h
      rcases ih _ _ _ _ h with ⟨hnil, _, hm⟩ | ⟨last, cls', hlast, hcls', hm⟩
      · subst hnil
        exact Or.inr ⟨(k', v'), cls, rfl, hcls, hm⟩
      · refine Or.inr ⟨last, cls', ?_, hcls', hm⟩
        cases rest with
        | nil => simp at hlast
        | cons r rs => simpa using hlast

theorem modelDict_key_ne_language (k : String) (cls : HubClass)
    (h : dictGet model_dict k = some cls) : k ≠ "language" := by
  intro hk
  rw [hk] at h
  have hnone : dictGet model_dict "language" = (none : Option HubClass) := rfl
  rw [hnone] at h
  exact Option.noConfusion h

/-! ### Forward-pass lemmas -/

theorem forward_get {ι : Type} (st : LanguageBind ι) (inputs : List (String × ι)) :
    ∀ out, LanguageBind.forward st inputs = some out →
      ∀ i, out.get? i = (inputs.get? i).bind fun kv =>
        (lbProcess st kv.1 kv.2).map fun m => (kv.1, m) := by
  induction inputs with
  | nil =>
    intro out h i
    simp [LanguageBind.forward] at h
    subst h
    simp
  | cons hd rest ih =>
    intro out h i
    obtain ⟨k, v⟩ := hd
    simp only [LanguageBind.forward] at h
    cases hm : lbProcess st k v with
    | none => rw [hm] at h; exact absurd h (by simp)
    | some m =>
      rw [hm] at h
      cases hr : LanguageBind.forward st rest with
      | none => rw [hr] at h; exact absurd h (by simp)
      | some outs =>
        rw [hr] at h
        simp only [Option.some.injEq] at h
        subst h
        cases i with
        | zero => simp [hm]
        | succ n => simpa using ih outs hr n

theorem processVideos_get (st : LanguageBindVideoTower) (vt : VisionModel)
    (vs : List PyTensor) :
    ∀ fs, processVideos st vt vs = some fs →
      ∀ i, fs.get? i = (vs.get? i).bind fun video =>
        (st.feature_select
            (vt.run ((video.to vt.embeddings.class_embedding.device
              vt.embeddings.class_embedding.dtype).unsqueeze0) true)).map
          fun f => f.toDtype video.dtype := by
  induction vs with
  | nil =>
    intro fs h i
    simp [processVideos] at h
    subst h
    simp
  | cons video rest ih =>
    intro fs h i
    simp only [processVideos] at h
    cases hf : st.feature_select
        (vt.run ((video.to vt.embeddings.class_embedding.device
          vt.embeddings.class_embedding.dtype).unsqueeze0) true) with
    | none => rw [hf] at h; exact absurd h (by simp)
    | some f =>
      rw [hf] at h
      cases hr : processVideos st vt rest with
      | none => rw [hr] at h; exact absurd h (by simp)
      | some fs' =>
        rw [hr] at h
        simp only [Option.some.injEq] at h
        subst h
        cases i with
        | zero => simp [hf]
        | succ n => simpa using ih fs' hr n

theorem processVideos_length (st : LanguageBindVideoTower) (vt : VisionModel)
    (vs : List PyTensor) :
    ∀ fs, processVideos st vt vs = some fs → fs.length = vs.length := by
  induction vs with
  | nil =>
    intro fs h
    simp [processVideos] at h
    subst h
    rfl
  | cons video rest ih =>
    intro fs h
    simp only [processVideos] at h
    cases hf : st.feature_select
        (vt.run ((video.to vt.embeddings.class_embedding.device
          vt.embeddings.class_embedding.dtype).unsqueeze0) true) with
    | none => rw [hf] at h; exact absurd h (by simp)
    | some f =>
      rw [hf] at h
      cases hr : processVideos st vt rest with
      | none => rw [hr] at h; exact absurd h (by simp)
      | some fs' =>
        rw [hr] at h
        simp only [Option.some.injEq] at h
        subst h
        simp [ih fs' hr]

theorem processVideos_congr (st1 st2 : LanguageBindVideoTower) (vt : VisionModel)
    (h : st1.select_layer = st2.select_layer) (vs : List PyTensor) :
    processVideos st1 vt vs = processVideos st2 vt vs := by
  induction vs with
  | nil => rfl
  | cons video rest ih =>
    simp only [processVideos, LanguageBindVideoTower.feature_select, h, ih]

theorem tower_forward_congr (st1 st2 : LanguageBindVideoTower)
    (hvt : st1.video_tower = st2.video_tower) (hsl : st1.select_layer = st2.select_layer)
    (videos : VideosInput) : st1.forward videos = st2.forward videos := by
  unfold LanguageBindVideoTower.forward
  rw [hvt]
  cases st2.video_tower with
  | none => rfl
  | some vt =>
    cases videos with
    | list vs => simp only [processVideos_congr st1 st2 vt hsl vs]
    | tensor t => simp only [LanguageBindVideoTower.feature_select, hsl]

/-! ### Concrete instances used by the witnesses -/

/-- A toy encoder output: pooled output a single row `[1, 0]`. -/
noncomputable def exEncLB : ℕ → EncPair := fun _ => ([], [[1, 0]])

/-- A toy pretrained checkpoint with identity projections and logit scale 1. -/
noncomputable def exModel : PretrainedCLIP ℕ :=
  { vision_model := exEncLB
    text_model := exEncLB
    visual_projection := id
    text_projection := id
    logit_scale := 1
    config := 0 }

/-- A toy hub returning `exModel` for every class and checkpoint. -/
noncomputable def exEnv : LBEnv ℕ := { from_pretrained := fun _ _ => exModel }

/-- The state `LanguageBind.init exEnv [("image", "Image")] true` builds. -/
noncomputable def exStLB : LanguageBind ℕ :=
  { use_temp := true
    modality_encoder := [("image", exModel.vision_model), ("language", exModel.text_model)]
    modality_proj := [("image", exModel.visual_projection), ("language", exModel.text_projection)]
    modality_scale := [("image", exModel.logit_scale)]
    modality_config := [("image", exModel.config)] }

theorem exInit_eq : LanguageBind.init exEnv [("image", "Image")] true = some exStLB := rfl

/-- A toy vision model: two hidden states, the input and the input with a
bumped payload. -/
def exVisionModel : VisionModel :=
  { embeddings := { class_embedding := { dtype := .float32, device := .cpu } }
    config := { hidden_size := 1024, image_size := 224, patch_size := 14 }
    run := fun t _ => { hidden_states := [t, { t with data := t.data + 1 }] } }

/-- A toy hub for the video tower. -/
def exVideoEnv : VideoEnv :=
  { videoFromPretrained := fun _ =>
      { vision_model := exVisionModel, config := exVisionModel.config }
    videoConfigFromPretrained := fun _ => exVisionModel.config }

/-- A loaded tower with `select_layer = -2` and no `select_feature` attribute. -/
def exTower : LanguageBindVideoTower :=
  LanguageBindVideoTower.init exVideoEnv "LanguageBind/LanguageBind_Video"
    { mm_vision_select_layer := -2, mm_vision_select_feature := none } false

/-- A toy video tensor. -/
def exVid : PyTensor :=
  { dtype := .float16, device := .cuda 0, shape := [3, 8, 224, 224], data := 7 }

/-! ### Claim theorems -/

/-- Claim C5: the three registry mappings `config_dict`, `model_dict` and
`transform_dict` all have exactly the key set
thermal, image, video, depth, audio, and for each modality key they yield
that modality's config class, model class and processor class respectively. -/
theorem registry_consistent :
    (config_dict.map Prod.fst).toFinset =
      ({"thermal", "image", "video", "depth", "audio"} : Finset String) ∧
    (model_dict.map Prod.fst).toFinset =
      ({"thermal", "image", "video", "depth", "audio"} : Finset String) ∧
    (transform_dict.map Prod.fst).toFinset =
      ({"thermal", "image", "video", "depth", "audio"} : Finset String) ∧
    dictGet config_dict "thermal" = some HubClass.LanguageBindThermalConfig ∧
    dictGet config_dict "image" = some HubClass.LanguageBindImageConfig ∧
    dictGet config_dict "video" = some HubClass.LanguageBindVideoConfig ∧
    dictGet config_dict "depth" = some HubClass.LanguageBindDepthConfig ∧
    dictGet config_dict "audio" = some HubClass.LanguageBindAudioConfig ∧
    dictGet model_dict "thermal" = some HubClass.LanguageBindThermal ∧
    dictGet model_dict "image" = some HubClass.LanguageBindImage ∧
    dictGet model_dict "video" = some HubClass.LanguageBindVideo ∧
    dictGet model_dict "depth" = some HubClass.LanguageBindDepth ∧
    dictGet model_dict "audio" = some HubClass.LanguageBindAudio ∧
    dictGet transform_dict "thermal" = some HubClass.LanguageBindThermalProcessor ∧
    dictGet transform_dict "image" = some HubClass.LanguageBindImageProcessor ∧
    dictGet transform_dict "video" = some HubClass.LanguageBindVideoProcessor ∧
    dictGet transform_dict "depth" = some HubClass.LanguageBindDepthProcessor ∧
    dictGet transform_dict "audio" = some HubClass.LanguageBindAudioProcessor := by
  decide

/-- Claim C6: on a loaded tower, the `dtype`, `device` and `hidden_size`
properties pass through the wrapped vision model's class-embedding dtype,
class-embedding device and configured hidden size unmodified. -/
theorem tower_passthrough_props (st : LanguageBindVideoTower) (vt : VisionModel)
    (h : st.video_tower = some vt) (hl : st.is_loaded = true) :
    st.dtype = some vt.embeddings.class_embedding.dtype ∧
    st.device = some vt.embeddings.class_embedding.device ∧
    st.hidden_size = some vt.config.hidden_size := by
  refine ⟨?_, ?_, ?_⟩ <;>
    simp [LanguageBindVideoTower.dtype, LanguageBindVideoTower.device,
      LanguageBindVideoTower.hidden_size, LanguageBindVideoTower.config, h, hl]

theorem tower_passthrough_props_witness :
    exTower.dtype = some exVisionModel.embeddings.class_embedding.dtype ∧
    exTower.device = some exVisionModel.embeddings.class_embedding.device ∧
    exTower.hidden_size = some exVisionModel.config.hidden_size :=
  tower_passthrough_props exTower exVisionModel rfl rfl

/-- Claim C9: neither `feature_select` nor the tower's forward pass depends
on the configured `mm_vision_select_feature` value: two towers constructed
from argument objects differing only in that attribute select the same
features and compute the same forward outputs, and no value of it makes
`feature_select` fail. -/
theorem select_feature_independence (env : VideoEnv) (name : String) (sl : Int)
    (f1 f2 : Option String) (d : Bool) (outs : VideoForwardOuts) (videos : VideosInput) :
    (LanguageBindVideoTower.init env name
        { mm_vision_select_layer := sl, mm_vision_select_feature := f1 } d).feature_select outs =
      (LanguageBindVideoTower.init env name
        { mm_vision_select_layer := sl, mm_vision_select_feature := f2 } d).feature_select outs ∧
    (LanguageBindVideoTower.init env name
        { mm_vision_select_layer := sl, mm_vision_select_feature := f1 } d).forward videos =
      (LanguageBindVideoTower.init env name
        { mm_vision_select_layer := sl, mm_vision_select_feature := f2 } d).forward videos := by
  cases d with
  | false =>
    exact ⟨rfl, tower_forward_congr
      (LanguageBindVideoTower.init env name
        { mm_vision_select_layer := sl, mm_vision_select_feature := f1 } false)
      (LanguageBindVideoTower.init env name
        { mm_vision_select_layer := sl, mm_vision_select_feature := f2 } false)
      rfl rfl videos⟩
  | true =>
    exact ⟨rfl, tower_forward_congr
      (LanguageBindVideoTower.init env name
        { mm_vision_select_layer := sl, mm_vision_select_feature := f1 } true)
      (LanguageBindVideoTower.init env name
        { mm_vision_select_layer := sl, mm_vision_select_feature := f2 } true)
      rfl rfl videos⟩

/-- Claim C3: on a loaded tower, `forward` runs the wrapped encoder with
`output_hidden_states=True` and returns, for a batched tensor, exactly
`hidden_states[select_layer]` (cast back to the input's dtype), and for a
list input the same selection per video. -/
theorem tower_forward_selects_hidden_states (st : LanguageBindVideoTower)
    (vt : VisionModel) (h : st.video_tower = some vt) :
    (∀ t : PyTensor, st.forward (.tensor t) =
      (pyIndex (vt.run (t.to vt.embeddings.class_embedding.device
          vt.embeddings.class_embedding.dtype) true).hidden_states st.select_layer).map
        fun f => Sum.inr (f.toDtype t.dtype)) ∧
    (∀ (vs : List PyTensor) (fs : List PyTensor),
      st.forward (.list vs) = some (Sum.inl fs) → ∀ i,
      fs.get? i = (vs.get? i).bind fun video =>
        (pyIndex (vt.run ((video.to vt.embeddings.class_embedding.device
            vt.embeddings.class_embedding.dtype).unsqueeze0) true).hidden_states
          st.select_layer).map fun f => f.toDtype video.dtype) := by
  constructor
  · intro t
    simp [LanguageBindVideoTower.forward, h, LanguageBindVideoTower.feature_select]
  · intro vs fs hfs i
    simp only [LanguageBindVideoTower.forward, h] at hfs
    cases hp : processVideos st vt vs with
    | none => rw [hp] at hfs; exact absurd hfs (by simp)
    | some fs' =>
      rw [hp] at hfs
      simp only [Option.map_some', Option.some.injEq, Sum.inl.injEq] at hfs
      subst hfs
      simpa only [LanguageBindVideoTower.feature_select] using
        processVideos_get st vt vs fs' hp i

theorem tower_forward_selects_hidden_states_witness :
    exTower.forward (.tensor exVid) =
      (pyIndex (exVisionModel.run (exVid.to exVisionModel.embeddings.class_embedding.device
          exVisionModel.embeddings.class_embedding.dtype) true).hidden_states
        exTower.select_layer).map (fun f => Sum.inr (f.toDtype exVid.dtype)) :=
  (tower_forward_selects_hidden_states exTower exVisionModel rfl).1 exVid

/-- Claim C7: on a loaded tower, `forward` branches on its input's form:
a list of videos is processed one video at a time (moved to the tower's
device and dtype, given a batch dimension of size 1 by `unsqueeze`, encoded,
feature-selected and cast back), yielding a list of per-video features of
the same length and order, while a single batched tensor is processed whole
and yields a single feature tensor. -/
theorem tower_forward_branching (st : LanguageBindVideoTower) (vt : VisionModel)
    (h : st.video_tower = some vt) :
    (∀ vs : List PyTensor, st.forward (.list vs) = (processVideos st vt vs).map Sum.inl) ∧
    (∀ (vs fs : List PyTensor), st.forward (.list vs) = some (Sum.inl fs) →
      fs.length = vs.length) ∧
    (∀ (vs fs : List PyTensor) (i : ℕ), st.forward (.list vs) = some (Sum.inl fs) →
      fs.get? i = (vs.get? i).bind fun video =>
        (st.feature_select (vt.run ((video.to vt.embeddings.class_embedding.device
            vt.embeddings.class_embedding.dtype).unsqueeze0) true)).map
          fun f => f.toDtype video.dtype) ∧
    (∀ t : PyTensor, st.forward (.tensor t) =
      (st.feature_select (vt.run (t.to vt.embeddings.class_embedding.device
          vt.embeddings.class_embedding.dtype) true)).map
        fun f => Sum.inr (f.toDtype t.dtype)) := by
  have hlist : ∀ (vs fs : List PyTensor), st.forward (.list vs) = some (Sum.inl fs) →
      processVideos st vt vs = some fs := by
    intro vs fs hfs
    simp only [LanguageBindVideoTower.forward, h] at hfs
    cases hp : processVideos st vt vs with
    | none => rw [hp] at hfs; exact absurd hfs (by simp)
    | some fs' =>
      rw [hp] at hfs
      simp only [Option.map_some', Option.some.injEq, Sum.inl.injEq] at hfs
      rw [hfs]
  refine ⟨?_, ?_, ?_, ?_⟩
  · intro vs
    simp [LanguageBindVideoTower.forward, h]
  · intro vs fs hfs
    exact processVideos_length st vt vs fs (hlist vs fs hfs)
  · intro vs fs i hfs
    exact processVideos_get st vt vs fs (hlist vs fs hfs) i
  · intro t
    simp [LanguageBindVideoTower.forward, h]

theorem tower_forward_branching_witness :
    ([⟨Dtype.float16, PyDevice.cpu, [1, 3, 8, 224, 224], 7⟩] : List PyTensor).length =
      ([exVid] : List PyTensor).length :=
  (tower_forward_branching exTower exVisionModel rfl).2.1 [exVid]
    [⟨Dtype.float16, PyDevice.cpu, [1, 3, 8, 224, 224], 7⟩] rfl

/-- Claim C1 counterexample: with `use_temp` on and logit scale 1, the
`image` output of `forward` is the normalized row scaled by `exp 1`, whose
L2 norm is `exp 1`, not 1 — so not every output embedding has unit norm. -/
theorem forward_output_not_unit_norm_cex :
    LanguageBind.forward exStLB [("image", 0)] =
      some [("image", [[1 / l2norm [1, 0] * Real.exp 1, 0 / l2norm [1, 0] * Real.exp 1]])] ∧
    l2norm [1 / l2norm [1, 0] * Real.exp 1, 0 / l2norm [1, 0] * Real.exp 1] ≠ 1 := by
  constructor
  · rfl
  · have h10 : l2norm [(1 : ℝ), 0] = 1 := by simp [l2norm, sumSq]
    rw [h10]
    have hrow : l2norm [1 / 1 * Real.exp 1, 0 / 1 * Real.exp 1] = Real.exp 1 := by
      have : (1 : ℝ) / 1 * Real.exp 1 = Real.exp 1 := by ring
      rw [this]
      have : (0 : ℝ) / 1 * Real.exp 1 = 0 := by ring
      rw [this]
      have hs : sumSq [Real.exp 1, 0] = Real.exp 1 ^ 2 := by
        simp [sumSq]
      rw [l2norm, hs, Real.sqrt_sq (Real.exp_pos 1).le]
    rw [hrow]
    intro hc
    have h0 : (1 : ℝ) = 0 := Real.exp_injective (by rw [hc, Real.exp_zero])
    norm_num at h0

/-- Claim C1 (amended): each modality's encoded and projected representation
is divided row-wise by its own L2 norm before any optional temperature
scaling, so every row with nonzero norm becomes a unit vector; outputs the
code does not temperature-scale (any key when `use_temp` is off, and the
`language` key always) are exactly these unit-norm rows. -/
theorem normalized_rows_unit_norm {ι : Type} (st : LanguageBind ι) (key : String) (v : ι)
    (enc : ι → EncPair) (proj : Mat → Mat)
    (henc : dictGet st.modality_encoder key = some enc)
    (hproj : dictGet st.modality_proj key = some proj)
    (hnz : ∀ row ∈ proj (enc v).2, l2norm row ≠ 0) :
    (∀ row ∈ (proj (enc v).2).map normalizeRow, l2norm row = 1) ∧
    (st.use_temp = false ∨ key = "language" →
      lbProcess st key v = some ((proj (enc v).2).map normalizeRow)) := by
  constructor
  · intro row hr
    obtain ⟨r, hrm, hre⟩ := List.mem_map.mp hr
    rw [← hre]
    exact l2norm_normalizeRow r (hnz r hrm)
  · rintro (hu | hk)
    · simp [lbProcess, henc, hproj, hu]
    · subst hk
      simp [lbProcess, henc, hproj]

theorem normalized_rows_unit_norm_witness :
    l2norm (normalizeRow [(1 : ℝ), 0]) = 1 ∧
    lbProcess exStLB "language" 0 =
      some ((exModel.text_projection (exModel.text_model 0).2).map normalizeRow) := by
  have h := normalized_rows_unit_norm exStLB "language" 0 exModel.text_model
    exModel.text_projection rfl rfl
    (by
      intro row hr
      have hre : row = [(1 : ℝ), 0] := by
        simpa [exModel, exEncLB] using hr
      rw [hre]
      simp [l2norm, sumSq])
  refine ⟨h.1 (normalizeRow [(1 : ℝ), 0]) ?_, h.2 (Or.inr rfl)⟩
  exact List.mem_map_of_mem normalizeRow (by simp [exModel, exEncLB])

/-- Claim C2: per `forward` item, when `use_temp` is on a non-`language`
key's output is the row-normalized embedding multiplied by the exponential
of that modality's logit scale, the `language` key's output is the
normalized embedding unscaled, and when `use_temp` is off no output is
scaled; and each `forward` output slot is exactly the processed input slot. -/
theorem forward_temperature_scaling {ι : Type} (st : LanguageBind ι) (key : String) (v : ι)
    (enc : ι → EncPair) (proj : Mat → Mat)
    (henc : dictGet st.modality_encoder key = some enc)
    (hproj : dictGet st.modality_proj key = some proj) :
    (st.use_temp = true → ∀ s : ℝ, key ≠ "language" →
      dictGet st.modality_scale key = some s →
      lbProcess st key v =
        some (((proj (enc v).2).map normalizeRow).map (List.map fun x => x * Real.exp s))) ∧
    (st.use_temp = true → key = "language" →
      lbProcess st key v = some ((proj (enc v).2).map normalizeRow)) ∧
    (st.use_temp = false →
      lbProcess st key v = some ((proj (enc v).2).map normalizeRow)) ∧
    (∀ (inputs : List (String × ι)) (out : List (String × Mat)),
      LanguageBind.forward st inputs = some out → ∀ i,
      out.get? i = (inputs.get? i).bind fun kv =>
        (lbProcess st kv.1 kv.2).map fun m => (kv.1, m)) := by
  refine ⟨?_, ?_, ?_, forward_get st⟩
  · intro ht s hk hs
    simp [lbProcess, henc, hproj, ht, hk, hs]
  · intro ht hk
    subst hk
    simp [lbProcess, henc, hproj, ht]
  · intro hu
    simp [lbProcess, henc, hproj, hu]

theorem forward_temperature_scaling_witness :
    lbProcess exStLB "image" 0 =
      some (((exModel.visual_projection (exModel.vision_model 0).2).map normalizeRow).map
        (List.map fun x => x * Real.exp 1)) :=
  (forward_temperature_scaling exStLB "image" 0 exModel.vision_model
    exModel.visual_projection rfl rfl).1 rfl 1 (by decide) rfl

/-- Claim C4: whenever the constructor succeeds on a `clip_type` mapping
(distinct keys, as in a Python dict), each requested modality key is bound
in `modality_encoder`, `modality_proj`, `modality_scale` and
`modality_config` to the vision sub-encoder, visual projection, logit scale
and config of the checkpoint `LanguageBind/<value>` loaded with that key's
`model_dict` class. -/
theorem init_stores_per_modality {ι : Type} (env : LBEnv ι)
    (clip_type : List (String × String)) (use_temp : Bool) (st : LanguageBind ι)
    (hnd : (clip_type.map Prod.fst).Nodup)
    (h : LanguageBind.init env clip_type use_temp = some st) :
    ∀ kv ∈ clip_type, ∃ cls, dictGet model_dict kv.1 = some cls ∧
      dictGet st.modality_encoder kv.1 =
        some (env.from_pretrained cls ("LanguageBind/" ++ kv.2)).vision_model ∧
      dictGet st.modality_proj kv.1 =
        some (env.from_pretrained cls ("LanguageBind/" ++ kv.2)).visual_projection ∧
      dictGet st.modality_scale kv.1 =
        some (env.from_pretrained cls ("LanguageBind/" ++ kv.2)).logit_scale ∧
      dictGet st.modality_config kv.1 =
        some (env.from_pretrained cls ("LanguageBind/" ++ kv.2)).config := by
  intro kv hmem
  unfold LanguageBind.init at h
  cases hloop : initLoop env clip_type
      { use_temp := use_temp, modality_encoder := [], modality_proj := [],
        modality_scale := [], modality_config := [] } none with
  | none => rw [hloop] at h; exact absurd h (by simp)
  | some res =>
    rw [hloop] at h
    obtain ⟨st1, m1⟩ := res
    cases m1 with
    | none => exact absurd h (by simp)
    | some model =>
      simp only [Option.some.injEq] at h
      obtain ⟨cls, hcls, h1, h2, h3, h4⟩ :=
        initLoop_mem env clip_type hnd kv.1 kv.2 hmem _ _ _ _ hloop
      have hne : kv.1 ≠ "language" := modelDict_key_ne_language kv.1 cls hcls
      refine ⟨cls, hcls, ?_, ?_, ?_, ?_⟩ <;> rw [← h] <;>
        simp [dictGet_dictSet_ne _ _ _ _ hne, h1, h2, h3, h4]

theorem init_stores_per_modality_witness :
    dictGet exStLB.modality_encoder "image" =
      some (exEnv.from_pretrained HubClass.LanguageBindImage
        ("LanguageBind/" ++ "Image")).vision_model ∧
    dictGet exStLB.modality_proj "image" =
      some (exEnv.from_pretrained HubClass.LanguageBindImage
        ("LanguageBind/" ++ "Image")).visual_projection ∧
    dictGet exStLB.modality_scale "image" =
      some (exEnv.from_pretrained HubClass.LanguageBindImage
        ("LanguageBind/" ++ "Image")).logit_scale ∧
    dictGet exStLB.modality_config "image" =
      some (exEnv.from_pretrained HubClass.LanguageBindImage
        ("LanguageBind/" ++ "Image")).config := by
  obtain ⟨cls, hc, h1, h2, h3, h4⟩ :=
    init_stores_per_modality exEnv [("image", "Image")] true exStLB (by simp) rfl
      ("image", "Image") (by simp)
  have hcc : cls = HubClass.LanguageBindImage := by
    have hh : dictGet model_dict "image" = some HubClass.LanguageBindImage := rfl
    rw [hh] at hc
    exact (Option.some.inj hc).symm
  subst hcc
  exact ⟨h1, h2, h3, h4⟩

/-- Claim C8: constructing with an empty `clip_type` fails (the loop
variable `model` is never bound), and on success the `language` entries of
`modality_encoder` and `modality_proj` are the text encoder and text
projection of the model loaded for the last key iterated in `clip_type`. -/
theorem language_entries_from_last_modality {ι : Type} (env : LBEnv ι) (use_temp : Bool) :
    LanguageBind.init env [] use_temp = none ∧
    (∀ (clip_type : List (String × String)) (st : LanguageBind ι)
      (last : String × String),
      LanguageBind.init env clip_type use_temp = some st →
      clip_type.getLast? = some last →
      ∃ cls, dictGet model_dict last.1 = some cls ∧
        dictGet st.modality_encoder "language" =
          some (env.from_pretrained cls ("LanguageBind/" ++ last.2)).text_model ∧
        dictGet st.modality_proj "language" =
          some (env.from_pretrained cls ("LanguageBind/" ++ last.2)).text_projection) := by
  constructor
  · rfl
  · intro clip_type st last h hlast
    unfold LanguageBind.init at h
    cases hloop : initLoop env clip_type
        { use_temp := use_temp, modality_encoder := [], modality_proj := [],
          modality_scale := [], modality_config := [] } none with
    | none => rw [hloop] at h; exact absurd h (by simp)
    | some res =>
      rw [hloop] at h
      obtain ⟨st1, m1⟩ := res
      cases m1 with
      | none => exact absurd h (by simp)
      | some model =>
        simp only [Option.some.injEq] at h
        rcases initLoop_last env clip_type _ _ _ _ hloop with
          ⟨hnil, _, hm⟩ | ⟨last', cls, hlast', hcls, hm⟩
        · subst hnil; simp at hlast
        · rw [hlast'] at hlast
          have hle : last' = last := Option.some.inj hlast
          subst hle
          have hmm := Option.some.inj hm
          subst hmm
          refine ⟨cls, hcls, ?_, ?_⟩ <;> rw [← h] <;> simp [dictGet_dictSet_self]

theorem language_entries_from_last_modality_witness :
    dictGet exStLB.modality_encoder "language" =
      some (exEnv.from_pretrained HubClass.LanguageBindImage
        ("LanguageBind/" ++ "Image")).text_model ∧
    dictGet exStLB.modality_proj "language" =
      some (exEnv.from_pretrained HubClass.LanguageBindImage
        ("LanguageBind/" ++ "Image")).text_projection := by
  obtain ⟨cls, hc, h1, h2⟩ :=
    (language_entries_from_last_modality exEnv true).2 [("image", "Image")] exStLB
      ("image", "Image") rfl rfl
  have hcc : cls = HubClass.LanguageBindImage := by
    have hh : dictGet model_dict "image" = some HubClass.LanguageBindImage := rfl
    rw [hh] at hc
    exact (Option.some.inj hc).symm
  subst hcc
  exact ⟨h1, h2⟩

/-- Claim C10: a successful `forward` returns a dictionary with exactly the
input's keys in order, and `to_device` likewise preserves the keys of its
input dictionary. -/
theorem forward_preserves_keys :
    (∀ (ι : Type) (st : LanguageBind ι) (inputs : List (String × ι))
      (out : List (String × Mat)),
      LanguageBind.forward st inputs = some out →
      out.map Prod.fst = inputs.map Prod.fst) ∧
    (∀ (τ δ : Type) (toFn : τ → δ → τ) (x : List (String × τ)) (device : δ),
      (to_device toFn x device).map Prod.fst = x.map Prod.fst) := by
  constructor
  · intro ι st inputs
    induction inputs with
    | nil =>
      intro out h
      simp [LanguageBind.forward] at h
      subst h
      rfl
    | cons hd rest ih =>
      intro out h
      obtain ⟨k, v⟩ := hd
      simp only [LanguageBind.forward] at h
      cases hm : lbProcess st k v with
      | none => rw [hm] at h; exact absurd h (by simp)
      | some m =>
        rw [hm] at h
        cases hr : LanguageBind.forward st rest with
        | none => rw [hr] at h; exact absurd h (by simp)
        | some outs =>
          rw [hr] at h
          simp only [Option.some.injEq] at h
          subst h
          simp [ih outs hr]
  · intro τ δ toFn x device
    simp [to_device]

theorem forward_preserves_keys_witness :
    ([("image", [[1 / l2norm [1, 0] * Real.exp 1, 0 / l2norm [1, 0] * Real.exp 1]])] :
        List (String × Mat)).map Prod.fst =
      ([("image", (0 : ℕ))] : List (String × ℕ)).map Prod.fst :=
  forward_preserves_keys.1 ℕ exStLB [("image", 0)]
    [("image", [[1 / l2norm [1, 0] * Real.exp 1, 0 / l2norm [1, 0] * Real.exp 1]])] rfl
